import Mathlib

/-!
# Verification of the ngmixer DES MEDS image-I/O core

Shallow embedding of the image/PSF assembly and bitmask-propagation
subsystem of `ngmixer/imageio/desmedsio.py`, together with theorems
settling the specification claims about it.

Conventions:
* numpy float arrays are embedded as total functions `Int → Int → ℚ`
  (or `List (List ℚ)` where slicing semantics matter), exact rational
  arithmetic standing in for IEEE floats;
* integer bitmask arrays are `Int → Int → Nat`, bit operations are `&&&`
  and `|||` on `Nat`;
* fallible code returns `Except`, absent data is `Option`.

The file is organized as the embedding (all definitions) followed by the
theorems about it.
-/

namespace Ngmixer

/-! ## Flag constants (module level constants in `desmedsio.py`) -/

def IMAGE_FLAGS_SET : Nat := 2 ^ 0
def PSF_IN_BLACKLIST : Nat := 2 ^ 1
def PSF_MISSING_S2N : Nat := 2 ^ 2
def PSF_LOW_S2N : Nat := 2 ^ 3
def PSF_FILE_READ_ERROR : Nat := 2 ^ 4

/-- The DES Y3 bad-pixel bitmask map (`DESY3_BADPIX_MAP`): named defect
categories to bit values.  Lookup of a name not in the map is embedded as 0
(the Python dict would raise; no caller in scope looks up a missing name). -/
def DESY3_BADPIX_MAP : String → Nat
  | "BPM" => 1
  | "SATURATE" => 2
  | "INTERP" => 4
  | "BADAMP" => 8
  | "CRAY" => 16
  | "STAR" => 32
  | "TRAIL" => 64
  | "EDGEBLEED" => 128
  | "SSXTALK" => 256
  | "EDGE" => 512
  | "STREAK" => 1024
  | "SUSPECT" => 2048
  | _ => 0

/-! ## Mask reduction (`Y1DESMEDSImageIO._interpolate_maskbits`)

The reduction step applied to the source bitmask `im1` before it is
reprojected: numpy boolean arrays `is_sat_or_interp`, `is_bright_star`,
`not_other_bits` are combined with `&`, the selected pixels are set to 1
and all others to 0 (`im1[:,:] = 0; im1[q] = 1`).  The computation is
pixelwise, so it is embedded pixelwise. -/

def interpMaskReducePixel (ignoreMask : Nat) (p : Nat) : Nat :=
  let is_sat_or_interp :=
    (p &&& DESY3_BADPIX_MAP "SATURATE" ≠ 0) ∨ (p &&& DESY3_BADPIX_MAP "INTERP" ≠ 0)
  let is_bright_star := p &&& DESY3_BADPIX_MAP "STAR" ≠ 0
  let not_other_bits := p &&& ignoreMask = 0
  if is_sat_or_interp ∧ is_bright_star ∧ not_other_bits then 1 else 0

/-- The reduced mask handed to `interpolate_image_diffsize`: the whole-array
form of `interpMaskReducePixel`. -/
def interpolateMaskbitsReduce (ignoreMask : Nat) (im1 : Int → Int → Nat) :
    Int → Int → Nat :=
  fun i j => interpMaskReducePixel ignoreMask (im1 i j)

/-! ## Degenerate-weight fallback during flux conversion
(`SVDESMEDSImageIO._get_band_observations`, the `try/except
GMixFatalError` blocks) -/

/-- Modelled from the spec: `ngmix.Observation.set_weight` (external
collaborator, not part of this repository) raises `GMixFatalError` for a
numerically degenerate weight map — one with no positive pixel — and
otherwise stores the weight. -/
def setWeight (w : List (List ℚ)) : Except Unit (List (List ℚ)) :=
  if w.all (fun row => row.all (fun x => x ≤ 0)) then .error () else .ok w

/-- `weight[0, 0] = v` -/
def setPixel00 (w : List (List ℚ)) (v : ℚ) : List (List ℚ) :=
  match w with
  | [] => []
  | row :: rest =>
    match row with
    | [] => [] :: rest
    | _ :: rtail => (v :: rtail) :: rest

/-- The `try/except GMixFatalError` hack of `_get_band_observations`:
attempt `obs.set_weight(weight)`; if the fatal numeric error is raised,
catch it, force `weight[0, 0] = 1.0` and set the weight again (the second
call is outside the `try`). -/
def setWeightWithFallback (weight : List (List ℚ)) : Except Unit (List (List ℚ)) :=
  match setWeight weight with
  | .ok w' => .ok w'
  | .error _ =>
    let weight := setPixel00 weight 1
    setWeight weight

/-! ## Flux / surface-brightness conversion
(`SVDESMEDSImageIO._get_band_observations`)

An observation as the conversion step sees it: `obs.meta['flags']`, the
jacobian scale, the image, the weight, and the optional `weight_raw` /
`weight_us` variants (`None` embeds the attribute being `None`).  Arrays
are `List (List ℚ)` so that the degenerate-weight check of `setWeight`
is computable. -/

structure BandObs where
  flags : Nat
  scale : ℚ
  image : List (List ℚ)
  weight : List (List ℚ)
  weight_raw : Option (List (List ℚ))
  weight_us : Option (List (List ℚ))
deriving DecidableEq

/-- The `imtype == 'surface_brightness' and 'galsim' in fitter_type` branch:
multiply the image by the squared jacobian scale, divide every weight
variant by its square, for an observation with zero flags.  The scaled
weight is stored through the `try/except GMixFatalError` fallback
(`setWeightWithFallback`); `obs.set_image(image, update_pixels=False)`
itself is a silent store. -/
def surfaceBrightnessToFlux (obs : BandObs) : Except Unit BandObs :=
  if obs.flags = 0 then
    let pixel_scale2 := obs.scale ^ 2
    let pixel_scale4 := pixel_scale2 * pixel_scale2
    let image := obs.image.map (fun row => row.map (fun x => x * pixel_scale2))
    let weight := obs.weight.map (fun row => row.map (fun x => x / pixel_scale4))
    match setWeightWithFallback weight with
    | .error e => .error e
    | .ok weight' =>
      .ok { obs with
        image := image
        weight := weight'
        weight_raw := obs.weight_raw.map
          (fun w => w.map (fun row => row.map (fun x => x / pixel_scale4)))
        weight_us := obs.weight_us.map
          (fun w => w.map (fun row => row.map (fun x => x / pixel_scale4))) }
  else .ok obs

/-- The `imtype != 'surface_brightness' and 'galsim' not in fitter_type`
branch: divide the image by the squared jacobian scale, multiply every
weight variant by its square, for an observation with zero flags; the
scaled weight again goes through the `try/except GMixFatalError`
fallback. -/
def fluxToSurfaceBrightness (obs : BandObs) : Except Unit BandObs :=
  if obs.flags = 0 then
    let pixel_scale2 := obs.scale ^ 2
    let pixel_scale4 := pixel_scale2 * pixel_scale2
    let image := obs.image.map (fun row => row.map (fun x => x / pixel_scale2))
    let weight := obs.weight.map (fun row => row.map (fun x => x * pixel_scale4))
    match setWeightWithFallback weight with
    | .error e => .error e
    | .ok weight' =>
      .ok { obs with
        image := image
        weight := weight'
        weight_raw := obs.weight_raw.map
          (fun w => w.map (fun row => row.map (fun x => x * pixel_scale4)))
        weight_us := obs.weight_us.map
          (fun w => w.map (fun row => row.map (fun x => x * pixel_scale4))) }
  else .ok obs

def c7Obs : BandObs :=
  { flags := 0
    scale := 2
    image := [[3]]
    weight := [[5]]
    weight_raw := some [[7]]
    weight_us := none }

/-- A degenerate observation: its weight map has no positive pixel. -/
def c7ObsDeg : BandObs :=
  { flags := 0
    scale := 2
    image := [[3]]
    weight := [[0, 0], [0]]
    weight_raw := none
    weight_us := none }

/-! ## Off-chip neighbor placement
(`Y1DESMEDSImageIO._get_offchip_nbr_psf_obs_and_jac`)

An ngmix jacobian: the 2×2 linear map `(u,v) = J·(row-row0, col-col0)`
anchored at `(row0, col0)`.  `numpy.linalg.inv` of the 2×2 matrix
`[[dudrow,dudcol],[dvdrow,dvdcol]]` is embedded as the exact
adjugate-over-determinant inverse. -/

structure NgmixJacobian where
  dudrow : ℚ
  dudcol : ℚ
  dvdrow : ℚ
  dvdcol : ℚ
  row0 : ℚ
  col0 : ℚ

def jacDet (J : NgmixJacobian) : ℚ := J.dudrow * J.dvdcol - J.dudcol * J.dvdrow

/-- Steps 2)–3) of `_get_offchip_nbr_psf_obs_and_jac`, after the tangent
plane offset `(du, dv) = uv_nbr` of the neighbor has been computed:
`rowcol_nbr = J⁻¹·(du,dv) + (row0,col0)`, the returned jacobian is a copy
of the central's re-centered there, paired with the central's own PSF. -/
def offchipNbrPsfObsAndJac {α : Type} (cenPsf : α) (J : NgmixJacobian) (du dv : ℚ) :
    α × NgmixJacobian :=
  let det := jacDet J
  let row_nbr := (J.dvdcol * du - J.dudcol * dv) / det + J.row0
  let col_nbr := (-J.dvdrow * du + J.dudrow * dv) / det + J.col0
  (cenPsf, { J with row0 := row_nbr, col0 := col_nbr })

def c3Jac : NgmixJacobian :=
  { dudrow := 1, dudcol := 2, dvdrow := 3, dvdcol := 4, row0 := 10, col0 := 20 }

/-! ## Flag loading and reduction (`SVDESMEDSImageIO._load_meds_files`) -/

/-- One band's flag load from `_load_meds_files`: `image_flags` read from
the image info, optional replacement of the single-epoch entries
(`image_flags[1:] = replacement`) when `replacement_flags` is configured
and `image_flags.size > 1`, then reduction of the single-epoch entries to
`0` or `IMAGE_FLAGS_SET` according to `image_flags2check`.  The coadd
entry (index 0) is not touched. -/
def loadImageFlags (flags2check : Nat) (raw : List Nat)
    (replacement : Option (List Nat)) : List Nat :=
  match raw with
  | [] => []
  | r0 :: rest =>
    let tail :=
      match replacement with
      | some repl => if rest.length ≥ 1 then repl else rest
      | none => rest
    r0 :: tail.map (fun f => if f &&& flags2check ≠ 0 then IMAGE_FLAGS_SET else 0)

/-- The coadd branch of `SVDESMEDSImageIO._get_psf_objects`: when the
caller declines to fit the coadd (`fit_coadd_galaxy` false), the coadd
entry (index 0) is flagged unusable wholesale via `|= 1`. -/
def skipCoaddPsfFlags (fitCoaddGalaxy : Bool) (flags : List Nat) : List Nat :=
  if fitCoaddGalaxy then flags
  else
    match flags with
    | [] => []
    | f0 :: rest => (f0 ||| 1) :: rest

/-! ## PIFF PSF loading (`SVDESMEDSImageIO._get_piff_object`,
`_read_piff_exp_info`, `_get_piff_info`, `_get_piff_path`)

The filesystem is embedded as explicit inputs: the per-exposure summary
file is `Option (List PiffInfoRecord)` (`none` = `os.path.exists` false on
the summary file), existence of the PIFF model file is a predicate on
paths. -/

structure PiffInfoRecord where
  ccdnum : Nat
  flag : Nat
  piff_file : String
deriving DecidableEq, Repr

inductive PiffLoadError where
  /-- `RuntimeError("Missing piff exposure:...")` -/
  | missingExposure
  /-- `RuntimeError("piff info for ... not found")` -/
  | infoNotFound
  /-- `MissingDataError("missing psf file: ...")` -/
  | missingData
deriving DecidableEq, Repr

/-- `_read_piff_exp_info`: a missing summary file is tolerated (`None`)
when `allow_missing` is configured, else fatal. -/
def readPiffExpInfo (allowMissing : Bool) (summary : Option (List PiffInfoRecord)) :
    Except PiffLoadError (Option (List PiffInfoRecord)) :=
  match summary with
  | none => if allowMissing then .ok none else .error .missingExposure
  | some recs => .ok (some recs)

/-- `_get_piff_info` (as a single lookup; the `_piff_info` dict caches
`_read_piff_exp_info` per exposure name and does not change the result):
select the first summary record with the requested `ccdnum`
(`numpy.where(expinfo['ccdnum'] == ccdnum)`, `expinfo[w[0]]`). -/
def getPiffInfo (allowMissing : Bool) (summary : Option (List PiffInfoRecord))
    (ccd : Nat) : Except PiffLoadError (Option PiffInfoRecord) :=
  match readPiffExpInfo allowMissing summary with
  | .error e => .error e
  | .ok none => .ok none
  | .ok (some recs) =>
    match recs.find? (fun r => r.ccdnum == ccd) with
    | none => .error .infoNotFound
    | some r => .ok (some r)

/-- `_replace_piff_dir`: keep the last three path components and prepend
`$PIFF_DATA_DIR`. -/
def replacePiffDir (piffDataDir : String) (path : String) : String :=
  let paths := path.splitOn "/"
  let paths := piffDataDir :: paths.drop (paths.length - 3)
  String.intercalate "/" paths

/-- `_get_piff_path` -/
def getPiffPath (piffDataDir : String) (info : PiffInfoRecord) : String :=
  replacePiffDir piffDataDir info.piff_file

/-- `_get_piff_object`: blacklist-sentinel result (no PSF object, flags
`PSF_IN_BLACKLIST`) when the record is absent / flagged / ccd 31;
otherwise the model file must exist (`MissingDataError` if not) and the
PIFF wrapper is built from its path. -/
def getPiffObject (allowMissing : Bool) (summary : Option (List PiffInfoRecord))
    (ccd : Nat) (piffDataDir : String) (psfExists : String → Bool) :
    Except PiffLoadError (Option String × Nat) :=
  match getPiffInfo allowMissing summary ccd with
  | .error e => .error e
  | .ok none => .ok (none, PSF_IN_BLACKLIST)
  | .ok (some r) =>
    if r.flag ≠ 0 ∨ r.ccdnum = 31 then
      .ok (none, PSF_IN_BLACKLIST)
    else
      let psf_path := getPiffPath piffDataDir r
      if psfExists psf_path then
        .ok (some psf_path, 0)
      else
        .error .missingData

def c5Recs : List PiffInfoRecord :=
  [⟨7, 0, "a/b/data/run1/exp/piff.fits"⟩, ⟨31, 0, "x"⟩]

/-! ## PSF trimming (`SVDESMEDSImageIO._trim_psf`) -/

/-- Python `int()` on an exact value: truncation toward zero. -/
def pyInt (q : ℚ) : Int := if 0 ≤ q then ⌊q⌋ else ⌈q⌉

/-- Python slice index resolution for `xs[a:b]`: negative indices count
from the end, both ends clipped to `[0, len]`. -/
def pySliceIdx (n : Nat) (a : Int) : Nat :=
  if a < 0 then ((n : Int) + a).toNat else min n a.toNat

/-- Python list/array slice `xs[a:b]`. -/
def pySlice {α : Type} (xs : List α) (a b : Int) : List α :=
  let s := pySliceIdx xs.length a
  let e := pySliceIdx xs.length b
  (xs.drop s).take (e - s)

/-- `_trim_psf`: slice the PSF image to the configured dims around the
center and shift the center; note that BOTH coordinates of the new center
have `rowstart` subtracted (`newcen[1] = cen[1] - rowstart` in the
source). -/
def trimPsf (d0 d1 : ℚ) (im : List (List ℚ)) (cen : ℚ × ℚ) :
    List (List ℚ) × (ℚ × ℚ) :=
  let rowstart := pyInt (cen.1 - d0 / 2 + 1 / 2)
  let rowend := pyInt (cen.1 + d0 / 2 + 1 / 2)
  let colstart := pyInt (cen.2 - d1 / 2 + 1 / 2)
  let colend := pyInt (cen.2 + d1 / 2 + 1 / 2)
  let newim := (pySlice im rowstart rowend).map (fun row => pySlice row colstart colend)
  (newim, (cen.1 - rowstart, cen.2 - rowstart))

def c10Im : List (List ℚ) :=
  [[1, 2, 3, 4], [5, 6, 7, 8], [9, 10, 11, 12], [13, 14, 15, 16]]

/-! ## PIFF wrapper center cache (`PIFFWrapper`)

`get_rec` draws a `stamp_size × stamp_size` image (external piff), flux
normalizes it, and caches the center `(shape - 1)/2` under the key built
by `_get_center_cache_key`; `get_center` looks the key up, forcing a
`get_rec` on a miss.  The cache is a Python dict, embedded as an
association list with one entry per key. -/

/-- `PIFFWrapper._get_center_cache_key`: the body computes the
`'%.16g-%.16g' % (row, col)` string into the local `key`, but the function
has no `return` statement, so every call returns Python `None` whatever
`(row, col)` is. -/
def getCenterCacheKey (_row _col : ℚ) : Option String := none

structure PIFFWrapperState where
  stamp_size : Nat
  center_cache : List (Option String × (ℚ × ℚ))
deriving Repr

def cacheLookup (k : Option String) (c : List (Option String × (ℚ × ℚ))) :
    Option (ℚ × ℚ) :=
  (c.find? (fun e => e.1 == k)).map (fun e => e.2)

/-- Python dict assignment `d[k] = v`: at most one entry per key. -/
def cacheInsert (k : Option String) (v : ℚ × ℚ)
    (c : List (Option String × (ℚ × ℚ))) : List (Option String × (ℚ × ℚ)) :=
  (k, v) :: c.filter (fun e => e.1 != k)

/-- `PIFFWrapper._cache_center`: `cen = (array(im.shape) - 1)/2` for the
drawn `stamp_size × stamp_size` image. -/
def cacheCenter (s : PIFFWrapperState) (row col : ℚ) : PIFFWrapperState :=
  let key := getCenterCacheKey row col
  let cen := (((s.stamp_size : ℚ) - 1) / 2, ((s.stamp_size : ℚ) - 1) / 2)
  { s with center_cache := cacheInsert key cen s.center_cache }

/-- `PIFFWrapper.get_rec`, restricted to its cache effect (the returned
normalized image is external piff data). -/
def piffGetRec (s : PIFFWrapperState) (row col : ℚ) : PIFFWrapperState :=
  cacheCenter s row col

/-- `PIFFWrapper.get_center`. -/
def piffGetCenter (s : PIFFWrapperState) (row col : ℚ) :
    PIFFWrapperState × Option (ℚ × ℚ) :=
  let key := getCenterCacheKey row col
  match cacheLookup key s.center_cache with
  | some _ => (s, cacheLookup key s.center_cache)
  | none =>
    let s' := piffGetRec s row col
    (s', cacheLookup key s'.center_cache)

/-! ## Weight zeroing (`Y1DESMEDSImageIO._prop_extra_bitmasks`)

The final step after reprojecting and dilating the combined mask into a
cutout: `q = numpy.where((bmaski != 0) & (obs.seg == 0))` and every
weight-array variant present on the observation is zeroed at `q`.  The
variants are embedded as `Option` fields (`hasattr`). -/

structure PropObs where
  flags : Nat
  seg : Int → Int → Nat
  weight_raw : Option (Int → Int → ℚ)
  weight_us : Option (Int → Int → ℚ)
  weight : Option (Int → Int → ℚ)
  weight_orig : Option (Int → Int → ℚ)

/-- The weight-zeroing step of `_prop_extra_bitmasks` for one observation
with zero flags: zero every present weight variant where the dilated mask
is nonzero AND the segmentation map is 0 (background). -/
def propZeroWeights (bmaski : Int → Int → Nat) (obs : PropObs) : PropObs :=
  if obs.flags = 0 then
    let q := fun i j => bmaski i j ≠ 0 ∧ obs.seg i j = 0
    { obs with
      weight_raw := obs.weight_raw.map
        (fun w => fun i j => if q i j then 0 else w i j)
      weight_us := obs.weight_us.map
        (fun w => fun i j => if q i j then 0 else w i j)
      weight := obs.weight.map
        (fun w => fun i j => if q i j then 0 else w i j)
      weight_orig := obs.weight_orig.map
        (fun w => fun i j => if q i j then 0 else w i j) }
  else obs

def c1Seg : Int → Int → Nat := fun _ _ => 5

def c1Obs : PropObs :=
  { flags := 0
    seg := c1Seg
    weight_raw := none
    weight_us := none
    weight := some (fun _ _ => 2)
    weight_orig := none }

def c1ObsB : PropObs :=
  { flags := 0
    seg := fun i j => if i = 0 ∧ j = 0 then 0 else 5
    weight_raw := some (fun _ _ => 3)
    weight_us := none
    weight := some (fun _ _ => 2)
    weight_orig := some (fun _ _ => 7) }

/-! ## Mask dilation (`Y1DESMEDSImageIO._expand_mask`)

`cbmask = bmask.copy(); qx_prev, qy_prev = where(cbmask != 0)`; each round
walks the previous frontier, writes 1 into every in-bounds pixel of the
3×3 neighborhood of each frontier pixel, and collects the written
positions as the next frontier.  The loops are embedded as left folds:
`innerStep` is the `for dy` body, `outerStep` the `for dx` body with its
row-bound check, `expandPixel` the walk over one frontier pixel, and
`expandRound` one `for r` iteration. -/

def gridSet (g : Int → Int → Nat) (i j : Int) (v : Nat) : Int → Int → Nat :=
  fun a b => if a = i ∧ b = j then v else g a b

def innerStep (s1 : Nat) (iix iy : Int)
    (acc : (Int → Int → Nat) × List (Int × Int)) (dy : Int) :
    (Int → Int → Nat) × List (Int × Int) :=
  let iiy := iy + dy
  if 0 ≤ iiy ∧ iiy < (s1 : Int) then
    (gridSet acc.1 iix iiy 1, acc.2 ++ [(iix, iiy)])
  else acc

def outerStep (s0 s1 : Nat) (ix iy : Int)
    (acc : (Int → Int → Nat) × List (Int × Int)) (dx : Int) :
    (Int → Int → Nat) × List (Int × Int) :=
  let iix := ix + dx
  if 0 ≤ iix ∧ iix < (s0 : Int) then
    ([-1, 0, 1] : List Int).foldl (innerStep s1 iix iy) acc
  else acc

def expandPixel (s0 s1 : Nat) (ix iy : Int)
    (acc : (Int → Int → Nat) × List (Int × Int)) :
    (Int → Int → Nat) × List (Int × Int) :=
  ([-1, 0, 1] : List Int).foldl (outerStep s0 s1 ix iy) acc

def expandRound (s0 s1 : Nat) (g : Int → Int → Nat)
    (frontier : List (Int × Int)) :
    (Int → Int → Nat) × List (Int × Int) :=
  frontier.foldl (fun acc p => expandPixel s0 s1 p.1 p.2 acc) (g, [])

def expandRoundsGo (s0 s1 : Nat) :
    Nat → (Int → Int → Nat) → List (Int × Int) → Int → Int → Nat
  | 0, g, _ => g
  | r + 1, g, frontier =>
    let gf := expandRound s0 s1 g frontier
    expandRoundsGo s0 s1 r gf.1 gf.2

/-- `numpy.where(cbmask != 0)` over the `s0 × s1` array, as coordinate
pairs in row-major order. -/
def whereNonzero (s0 s1 : Nat) (g : Int → Int → Nat) : List (Int × Int) :=
  (List.range s0).flatMap (fun i : Nat =>
    (List.range s1).filterMap (fun j : Nat =>
      if g (i : Int) (j : Int) ≠ 0 then some ((i : Int), (j : Int)) else none))

/-- `_expand_mask` -/
def expandMask (s0 s1 : Nat) (g : Int → Int → Nat) (rounds : Nat) :
    Int → Int → Nat :=
  expandRoundsGo s0 s1 rounds g (whereNonzero s0 s1 g)

/-- The in-bounds 3×3 neighborhood relation written by one frontier
pixel `p`. -/
def nbr3 (s0 s1 : Nat) (p : Int × Int) (a b : Int) : Prop :=
  0 ≤ a ∧ a < (s0 : Int) ∧ 0 ≤ b ∧ b < (s1 : Int) ∧
    p.1 - 1 ≤ a ∧ a ≤ p.1 + 1 ∧ p.2 - 1 ≤ b ∧ b ≤ p.2 + 1

def c8Grid : Int → Int → Nat := fun i j => if i = 1 ∧ j = 2 then 6 else 0

/-! ## C4: mask reduction isolates star-saturation bleed -/

lemma and_two_pow_ne_zero (n i : Nat) : n &&& 2 ^ i ≠ 0 ↔ n.testBit i := by
  rw [Nat.and_two_pow]
  cases h : n.testBit i <;> simp [h]

/-- C4: the reduced mask is 1 iff (SATURATE bit or INTERP bit) and STAR bit
and no ignore-mask bit; otherwise 0. -/
theorem interp_maskbits_reduce_spec (msk : Nat) (im1 : Int → Int → Nat) (i j : Int) :
    (interpolateMaskbitsReduce msk im1 i j = 1 ↔
      (((im1 i j).testBit 1 ∨ (im1 i j).testBit 2) ∧ (im1 i j).testBit 5 ∧
        im1 i j &&& msk = 0)) ∧
    (¬ (((im1 i j).testBit 1 ∨ (im1 i j).testBit 2) ∧ (im1 i j).testBit 5 ∧
        im1 i j &&& msk = 0) → interpolateMaskbitsReduce msk im1 i j = 0) := by
  have h1 := and_two_pow_ne_zero (im1 i j) 1
  have h2 := and_two_pow_ne_zero (im1 i j) 2
  have h5 := and_two_pow_ne_zero (im1 i j) 5
  norm_num at h1 h2 h5
  have e2 : DESY3_BADPIX_MAP "SATURATE" = 2 := rfl
  have e4 : DESY3_BADPIX_MAP "INTERP" = 4 := rfl
  have e32 : DESY3_BADPIX_MAP "STAR" = 32 := rfl
  simp only [interpolateMaskbitsReduce, interpMaskReducePixel, e2, e4, e32]
  constructor
  · split
    · simp_all
    · simp_all [h1, h2, h5]
  · intro hnot
    split
    · simp_all [h1, h2, h5]
    · rfl

/-- Witness for C4: pixel 34 = SATURATE|STAR (with ignore mask CRAY = 16)
reduces to 1; pixel 50 = SATURATE|CRAY|STAR reduces to 0. -/
theorem interp_maskbits_reduce_spec_witness :
    interpolateMaskbitsReduce 16 (fun _ _ => 34) 0 0 = 1 ∧
    interpolateMaskbitsReduce 16 (fun _ _ => 50) 0 0 = 0 := by
  refine ⟨?_, ?_⟩
  · exact (interp_maskbits_reduce_spec 16 (fun _ _ => 34) 0 0).1.mpr (by decide)
  · exact (interp_maskbits_reduce_spec 16 (fun _ _ => 50) 0 0).2 (by decide)

/-! ## C7: flux / surface-brightness round trip -/

lemma row_div_mul (s4 : ℚ) (h : s4 ≠ 0) (r : List ℚ) :
    (r.map (fun x => x / s4)).map (fun x => x * s4) = r := by
  induction r with
  | nil => rfl
  | cons x xs ih =>
    simp only [List.map_cons, ih]
    rw [div_mul_cancel₀ x h]

lemma row_mul_div (s4 : ℚ) (h : s4 ≠ 0) (r : List ℚ) :
    (r.map (fun x => x * s4)).map (fun x => x / s4) = r := by
  induction r with
  | nil => rfl
  | cons x xs ih =>
    simp only [List.map_cons, ih]
    rw [mul_div_cancel_right₀ x h]

lemma grid_div_mul (s4 : ℚ) (h : s4 ≠ 0) (w : List (List ℚ)) :
    ((w.map (fun r => r.map (fun x => x / s4))).map
      (fun r => r.map (fun x => x * s4))) = w := by
  induction w with
  | nil => rfl
  | cons r rest ih =>
    simp only [List.map_cons, ih]
    rw [row_div_mul s4 h r]

lemma grid_mul_div (s4 : ℚ) (h : s4 ≠ 0) (w : List (List ℚ)) :
    ((w.map (fun r => r.map (fun x => x * s4))).map
      (fun r => r.map (fun x => x / s4))) = w := by
  induction w with
  | nil => rfl
  | cons r rest ih =>
    simp only [List.map_cons, ih]
    rw [row_mul_div s4 h r]

lemma grid_all_nonpos_div (s4 : ℚ) (hs : 0 < s4) (w : List (List ℚ)) :
    (w.map (fun r => r.map (fun x => x / s4))).all
        (fun row => row.all (fun x => x ≤ 0)) =
      w.all (fun row => row.all (fun x => x ≤ 0)) := by
  induction w with
  | nil => rfl
  | cons r rest ih =>
    simp only [List.map_cons, List.all_cons, ih]
    congr 1
    induction r with
    | nil => rfl
    | cons x xs ihx =>
      simp only [List.map_cons, List.all_cons, ihx]
      congr 1
      have hx : x / s4 ≤ 0 ↔ x ≤ 0 := by
        rw [div_nonpos_iff]
        constructor
        · rintro (⟨_, hneg⟩ | ⟨hx0, _⟩)
          · linarith
          · exact hx0
        · intro hx0
          exact Or.inr ⟨hx0, le_of_lt hs⟩
      simp [hx]

lemma grid_all_nonpos_mul (s4 : ℚ) (hs : 0 < s4) (w : List (List ℚ)) :
    (w.map (fun r => r.map (fun x => x * s4))).all
        (fun row => row.all (fun x => x ≤ 0)) =
      w.all (fun row => row.all (fun x => x ≤ 0)) := by
  induction w with
  | nil => rfl
  | cons r rest ih =>
    simp only [List.map_cons, List.all_cons, ih]
    congr 1
    induction r with
    | nil => rfl
    | cons x xs ihx =>
      simp only [List.map_cons, List.all_cons, ihx]
      congr 1
      have hx : x * s4 ≤ 0 ↔ x ≤ 0 := by
        rw [mul_nonpos_iff]
        constructor
        · rintro (⟨_, hneg⟩ | ⟨hx0, _⟩)
          · linarith
          · exact hx0
        · intro hx0
          exact Or.inr ⟨hx0, le_of_lt hs⟩
      simp [hx]

lemma setWeightWithFallback_of_not_deg (w : List (List ℚ))
    (hw : w.all (fun row => row.all (fun x => x ≤ 0)) = false) :
    setWeightWithFallback w = .ok w := by
  simp [setWeightWithFallback, setWeight, hw]

lemma ok_bind {ε α β : Type} (a : α) (g : α → Except ε β) :
    (Except.ok a >>= g : Except ε β) = g a := rfl

/-- C7 counterexample: on a numerically degenerate weight map (no
positive pixel) the claim fails as stated.  The forward conversion's
caught `GMixFatalError` forces `weight[0,0] = 1.0`, so the forward
conversion followed by the backward conversion with the same pixel scale
(2) stores weight `[[16, 0], [0]]` instead of the original
`[[0, 0], [0]]`. -/
theorem flux_sb_round_trip_claim_false :
    c7ObsDeg.scale ≠ 0 ∧
    ((surfaceBrightnessToFlux c7ObsDeg >>= fluxToSurfaceBrightness).toOption.map
        (fun o => o.weight)) = some [[16, 0], [0]] ∧
    ¬ ([[16, 0], [0]] : List (List ℚ)) = c7ObsDeg.weight := by
  refine ⟨by norm_num [c7ObsDeg], ?_, by decide⟩
  norm_num [c7ObsDeg, surfaceBrightnessToFlux, fluxToSurfaceBrightness,
    setWeightWithFallback, setWeight, setPixel00, ok_bind, Except.toOption]

/-- C7 amended: for every observation whose weight map is not numerically
degenerate (when its flags are zero), and every nonzero jacobian scale,
the forward flux conversion followed by the backward conversion (and vice
versa) succeeds and restores the image and every weight variant
exactly. -/
theorem flux_sb_round_trip (obs : BandObs) (h : obs.scale ≠ 0)
    (hw : obs.flags = 0 →
      obs.weight.all (fun row => row.all (fun x => x ≤ 0)) = false) :
    (surfaceBrightnessToFlux obs >>= fluxToSurfaceBrightness) = .ok obs ∧
    (fluxToSurfaceBrightness obs >>= surfaceBrightnessToFlux) = .ok obs := by
  obtain ⟨f, s, im, w, wr, wu⟩ := obs
  replace h : s ≠ 0 := h
  have h2 : (0 : ℚ) < s ^ 2 := pow_two_pos_of_ne_zero h
  have h2ne : s ^ 2 ≠ 0 := ne_of_gt h2
  have h4 : (0 : ℚ) < s ^ 2 * s ^ 2 := mul_pos h2 h2
  have h4ne : s ^ 2 * s ^ 2 ≠ 0 := ne_of_gt h4
  by_cases hf : f = 0
  · subst hf
    replace hw : w.all (fun row => row.all (fun x => x ≤ 0)) = false := hw rfl
    have hwdiv := grid_all_nonpos_div (s ^ 2 * s ^ 2) h4 w
    have hwmul := grid_all_nonpos_mul (s ^ 2 * s ^ 2) h4 w
    rw [hw] at hwdiv hwmul
    constructor
    · have fwd : surfaceBrightnessToFlux ⟨0, s, im, w, wr, wu⟩ =
          .ok ⟨0, s,
            im.map (fun r => r.map (fun x => x * s ^ 2)),
            w.map (fun r => r.map (fun x => x / (s ^ 2 * s ^ 2))),
            wr.map (fun v => v.map (fun r => r.map (fun x => x / (s ^ 2 * s ^ 2)))),
            wu.map (fun v => v.map (fun r => r.map (fun x => x / (s ^ 2 * s ^ 2))))⟩ := by
        simp [surfaceBrightnessToFlux, setWeightWithFallback_of_not_deg _ hwdiv]
      rw [fwd, ok_bind]
      have hw2 : ((w.map (fun r => r.map (fun x => x / (s ^ 2 * s ^ 2)))).map
          (fun r => r.map (fun x => x * (s ^ 2 * s ^ 2)))).all
            (fun row => row.all (fun x => x ≤ 0)) = false := by
        rw [grid_div_mul _ h4ne]
        exact hw
      simp only [fluxToSurfaceBrightness, setWeightWithFallback_of_not_deg _ hw2]
      simp only [grid_div_mul _ h4ne, grid_mul_div _ h2ne]
      cases wr <;> cases wu <;>
        simp [grid_div_mul _ h4ne]
    · have bwd : fluxToSurfaceBrightness ⟨0, s, im, w, wr, wu⟩ =
          .ok ⟨0, s,
            im.map (fun r => r.map (fun x => x / s ^ 2)),
            w.map (fun r => r.map (fun x => x * (s ^ 2 * s ^ 2))),
            wr.map (fun v => v.map (fun r => r.map (fun x => x * (s ^ 2 * s ^ 2)))),
            wu.map (fun v => v.map (fun r => r.map (fun x => x * (s ^ 2 * s ^ 2))))⟩ := by
        simp [fluxToSurfaceBrightness, setWeightWithFallback_of_not_deg _ hwmul]
      rw [bwd, ok_bind]
      have hw2 : ((w.map (fun r => r.map (fun x => x * (s ^ 2 * s ^ 2)))).map
          (fun r => r.map (fun x => x / (s ^ 2 * s ^ 2)))).all
            (fun row => row.all (fun x => x ≤ 0)) = false := by
        rw [grid_mul_div _ h4ne]
        exact hw
      simp only [surfaceBrightnessToFlux, setWeightWithFallback_of_not_deg _ hw2]
      simp only [grid_mul_div _ h4ne, grid_div_mul _ h2ne]
      cases wr <;> cases wu <;>
        simp [grid_mul_div _ h4ne]
  · constructor <;> simp [surfaceBrightnessToFlux, fluxToSurfaceBrightness, hf, ok_bind]

/-- Witness for the amended C7 at a concrete non-degenerate observation
with scale 2. -/
theorem flux_sb_round_trip_witness :
    (surfaceBrightnessToFlux c7Obs >>= fluxToSurfaceBrightness) = .ok c7Obs ∧
    (fluxToSurfaceBrightness c7Obs >>= surfaceBrightnessToFlux) = .ok c7Obs :=
  flux_sb_round_trip c7Obs (by norm_num [c7Obs]) (by decide)

/-! ## C3: off-chip neighbor jacobian recentering -/

/-- C3: for an invertible central jacobian, the off-chip placement returns
the central's own PSF and a jacobian with the same linear part, whose new
center is exactly the unique solution of `J·(row-row0, col-col0) = (du,dv)`
— i.e. exactly `J⁻¹·(du,dv) + (row0,col0)`. -/
theorem offchip_nbr_jac_spec {α : Type} (cenPsf : α) (J : NgmixJacobian)
    (du dv : ℚ) (hdet : jacDet J ≠ 0) :
    (offchipNbrPsfObsAndJac cenPsf J du dv).1 = cenPsf ∧
    ((offchipNbrPsfObsAndJac cenPsf J du dv).2.dudrow = J.dudrow ∧
     (offchipNbrPsfObsAndJac cenPsf J du dv).2.dudcol = J.dudcol ∧
     (offchipNbrPsfObsAndJac cenPsf J du dv).2.dvdrow = J.dvdrow ∧
     (offchipNbrPsfObsAndJac cenPsf J du dv).2.dvdcol = J.dvdcol) ∧
    (J.dudrow * ((offchipNbrPsfObsAndJac cenPsf J du dv).2.row0 - J.row0) +
       J.dudcol * ((offchipNbrPsfObsAndJac cenPsf J du dv).2.col0 - J.col0) = du ∧
     J.dvdrow * ((offchipNbrPsfObsAndJac cenPsf J du dv).2.row0 - J.row0) +
       J.dvdcol * ((offchipNbrPsfObsAndJac cenPsf J du dv).2.col0 - J.col0) = dv) ∧
    (∀ r c : ℚ,
      J.dudrow * (r - J.row0) + J.dudcol * (c - J.col0) = du →
      J.dvdrow * (r - J.row0) + J.dvdcol * (c - J.col0) = dv →
      r = (offchipNbrPsfObsAndJac cenPsf J du dv).2.row0 ∧
      c = (offchipNbrPsfObsAndJac cenPsf J du dv).2.col0) := by
  refine ⟨rfl, ⟨rfl, rfl, rfl, rfl⟩, ⟨?_, ?_⟩, ?_⟩
  · show J.dudrow * ((J.dvdcol * du - J.dudcol * dv) / jacDet J + J.row0 - J.row0) +
      J.dudcol * ((-J.dvdrow * du + J.dudrow * dv) / jacDet J + J.col0 - J.col0) = du
    field_simp
    unfold jacDet
    ring
  · show J.dvdrow * ((J.dvdcol * du - J.dudcol * dv) / jacDet J + J.row0 - J.row0) +
      J.dvdcol * ((-J.dvdrow * du + J.dudrow * dv) / jacDet J + J.col0 - J.col0) = dv
    field_simp
    unfold jacDet
    ring
  · intro r c h1 h2
    constructor
    · show r = (J.dvdcol * du - J.dudcol * dv) / jacDet J + J.row0
      have hr : jacDet J * (r - J.row0) = J.dvdcol * du - J.dudcol * dv := by
        unfold jacDet
        linear_combination J.dvdcol * h1 - J.dudcol * h2
      rw [← hr, mul_div_cancel_left₀ _ hdet]
      ring
    · show c = (-J.dvdrow * du + J.dudrow * dv) / jacDet J + J.col0
      have hc : jacDet J * (c - J.col0) = -J.dvdrow * du + J.dudrow * dv := by
        unfold jacDet
        linear_combination J.dudrow * h2 - J.dvdrow * h1
      rw [← hc, mul_div_cancel_left₀ _ hdet]
      ring

/-- Witness for C3 at a concrete invertible jacobian (determinant -2) and
offset (5, 6). -/
theorem offchip_nbr_jac_spec_witness :
    (offchipNbrPsfObsAndJac "cen-psf" c3Jac 5 6).1 = "cen-psf" ∧
    ((offchipNbrPsfObsAndJac "cen-psf" c3Jac 5 6).2.dudrow = c3Jac.dudrow ∧
     (offchipNbrPsfObsAndJac "cen-psf" c3Jac 5 6).2.dudcol = c3Jac.dudcol ∧
     (offchipNbrPsfObsAndJac "cen-psf" c3Jac 5 6).2.dvdrow = c3Jac.dvdrow ∧
     (offchipNbrPsfObsAndJac "cen-psf" c3Jac 5 6).2.dvdcol = c3Jac.dvdcol) ∧
    (c3Jac.dudrow * ((offchipNbrPsfObsAndJac "cen-psf" c3Jac 5 6).2.row0 - c3Jac.row0) +
       c3Jac.dudcol * ((offchipNbrPsfObsAndJac "cen-psf" c3Jac 5 6).2.col0 - c3Jac.col0) = 5 ∧
     c3Jac.dvdrow * ((offchipNbrPsfObsAndJac "cen-psf" c3Jac 5 6).2.row0 - c3Jac.row0) +
       c3Jac.dvdcol * ((offchipNbrPsfObsAndJac "cen-psf" c3Jac 5 6).2.col0 - c3Jac.col0) = 6) ∧
    (∀ r c : ℚ,
      c3Jac.dudrow * (r - c3Jac.row0) + c3Jac.dudcol * (c - c3Jac.col0) = 5 →
      c3Jac.dvdrow * (r - c3Jac.row0) + c3Jac.dvdcol * (c - c3Jac.col0) = 6 →
      r = (offchipNbrPsfObsAndJac "cen-psf" c3Jac 5 6).2.row0 ∧
      c = (offchipNbrPsfObsAndJac "cen-psf" c3Jac 5 6).2.col0) :=
  offchip_nbr_jac_spec "cen-psf" c3Jac 5 6 (by norm_num [jacDet, c3Jac])

/-! ## C6: reduced quality flags -/

/-- C6: after flag loading and reduction every single-epoch entry is 0 or
`IMAGE_FLAGS_SET`, the coadd entry keeps its raw value, and declining the
coadd fit ORs `IMAGE_FLAGS_SET` (= 1) into the coadd entry only. -/
theorem load_image_flags_spec (f2c : Nat) (raw : List Nat)
    (repl : Option (List Nat)) (fit : Bool) :
    (∀ k v, 1 ≤ k → (loadImageFlags f2c raw repl)[k]? = some v →
      v = 0 ∨ v = IMAGE_FLAGS_SET) ∧
    (loadImageFlags f2c raw repl).head? = raw.head? ∧
    (fit = false →
      (skipCoaddPsfFlags fit (loadImageFlags f2c raw repl)).head? =
        (loadImageFlags f2c raw repl).head?.map (· ||| IMAGE_FLAGS_SET) ∧
      (skipCoaddPsfFlags fit (loadImageFlags f2c raw repl)).tail =
        (loadImageFlags f2c raw repl).tail) := by
  refine ⟨?_, ?_, ?_⟩
  · intro k v hk hv
    cases raw with
    | nil => simp [loadImageFlags] at hv
    | cons r0 rest =>
      obtain ⟨k', rfl⟩ : ∃ k', k = k' + 1 := ⟨k - 1, by omega⟩
      simp only [loadImageFlags, List.getElem?_cons_succ, List.getElem?_map] at hv
      rcases Option.map_eq_some'.mp hv with ⟨x, _, hfx⟩
      by_cases hb : x &&& f2c ≠ 0 <;> simp [hb] at hfx <;> omega
  · cases raw with
    | nil => rfl
    | cons r0 rest => rfl
  · intro hfit
    subst hfit
    cases hl : loadImageFlags f2c raw repl with
    | nil => exact ⟨rfl, rfl⟩
    | cons f0 rest => exact ⟨rfl, rfl⟩

/-- Witness for C6 at concrete inputs: `flags2check = 3`,
raw flags `[9, 0, 5, 4]`, no replacement, coadd fit declined. -/
theorem load_image_flags_spec_witness :
    ((loadImageFlags 3 [9, 0, 5, 4] none)[2]? = some IMAGE_FLAGS_SET) ∧
    (loadImageFlags 3 [9, 0, 5, 4] none).head? = some 9 ∧
    (skipCoaddPsfFlags false (loadImageFlags 3 [9, 0, 5, 4] none)).head? =
      some (9 ||| IMAGE_FLAGS_SET) := by
  have h := load_image_flags_spec 3 [9, 0, 5, 4] none false
  refine ⟨?_, ?_, ?_⟩
  · have := h.1 2 IMAGE_FLAGS_SET (by norm_num)
    decide
  · exact h.2.1
  · rw [(h.2.2 rfl).1, h.2.1]
    rfl

/-! ## C5: PIFF loading error discipline -/

/-- C5: the PIFF loader returns the blacklist sentinel without raising
exactly for absent-but-tolerated / flagged / ccd-31 records; a missing
summary raises iff `allow_missing` is off; a clean record with a missing
model file always raises the distinct missing-data error. -/
theorem piff_load_spec (am : Bool) (summary : Option (List PiffInfoRecord))
    (ccd : Nat) (edir : String) (psfE : String → Bool) :
    (summary = none → am = true →
      getPiffObject am summary ccd edir psfE = .ok (none, PSF_IN_BLACKLIST)) ∧
    (summary = none → am = false →
      getPiffObject am summary ccd edir psfE = .error .missingExposure) ∧
    (∀ recs r, summary = some recs → recs.find? (fun x => x.ccdnum == ccd) = some r →
      (r.flag ≠ 0 ∨ r.ccdnum = 31) →
      getPiffObject am summary ccd edir psfE = .ok (none, PSF_IN_BLACKLIST)) ∧
    (∀ recs r, summary = some recs → recs.find? (fun x => x.ccdnum == ccd) = some r →
      r.flag = 0 → r.ccdnum ≠ 31 → psfE (getPiffPath edir r) = false →
      getPiffObject am summary ccd edir psfE = .error .missingData) ∧
    (getPiffObject am summary ccd edir psfE = .ok (none, PSF_IN_BLACKLIST) →
      (summary = none ∧ am = true) ∨
      (∃ recs r, summary = some recs ∧
        recs.find? (fun x => x.ccdnum == ccd) = some r ∧
        (r.flag ≠ 0 ∨ r.ccdnum = 31))) := by
  refine ⟨?_, ?_, ?_, ?_, ?_⟩
  · rintro rfl rfl
    rfl
  · rintro rfl rfl
    rfl
  · rintro recs r rfl hfind hbl
    simp [getPiffObject, getPiffInfo, readPiffExpInfo, hfind, hbl]
  · rintro recs r rfl hfind hflag hccd hmiss
    simp [getPiffObject, getPiffInfo, readPiffExpInfo, hfind, hflag, hccd, hmiss]
  · intro hres
    cases summary with
    | none =>
      cases am with
      | false => simp [getPiffObject, getPiffInfo, readPiffExpInfo] at hres
      | true => exact Or.inl ⟨rfl, rfl⟩
    | some recs =>
      refine Or.inr ⟨recs, ?_⟩
      cases hfind : recs.find? (fun x => x.ccdnum == ccd) with
      | none => simp [getPiffObject, getPiffInfo, readPiffExpInfo, hfind] at hres
      | some r =>
        refine ⟨r, rfl, rfl, ?_⟩
        by_contra hbl
        push_neg at hbl
        simp only [getPiffObject, getPiffInfo, readPiffExpInfo, hfind] at hres
        rw [if_neg (by push_neg; exact hbl)] at hres
        by_cases he : psfE (getPiffPath edir r) <;> simp [he] at hres

/-- Witness for C5 at concrete inputs: missing summary both tolerated and
fatal; a ccd-31 record blacklisted; a clean record with missing model
file raising missing-data. -/
theorem piff_load_spec_witness :
    getPiffObject true none 7 "$PIFF_DATA_DIR" (fun _ => true) =
      .ok (none, PSF_IN_BLACKLIST) ∧
    getPiffObject false none 7 "$PIFF_DATA_DIR" (fun _ => true) =
      .error .missingExposure ∧
    getPiffObject true (some c5Recs) 31 "$PIFF_DATA_DIR" (fun _ => true) =
      .ok (none, PSF_IN_BLACKLIST) ∧
    getPiffObject true (some c5Recs) 7 "$PIFF_DATA_DIR" (fun _ => false) =
      .error .missingData := by
  refine ⟨?_, ?_, ?_, ?_⟩
  · exact (piff_load_spec true none 7 "$PIFF_DATA_DIR" (fun _ => true)).1 rfl rfl
  · exact (piff_load_spec false none 7 "$PIFF_DATA_DIR" (fun _ => true)).2.1 rfl rfl
  · exact (piff_load_spec true (some c5Recs) 31 "$PIFF_DATA_DIR"
      (fun _ => true)).2.2.1 c5Recs ⟨31, 0, "x"⟩ rfl (by decide) (by decide)
  · exact (piff_load_spec true (some c5Recs) 7 "$PIFF_DATA_DIR"
      (fun _ => false)).2.2.2.1 c5Recs ⟨7, 0, "a/b/data/run1/exp/piff.fits"⟩ rfl
      (by decide) rfl (by decide) rfl

/-! ## C9: degenerate-weight fallback -/

/-- C9: for every weight array with a nonempty first row, the fallback
never lets the fatal error propagate, and on the error path the stored
weight is the original with pixel (0,0) forced to 1.0. -/
theorem set_weight_fallback_spec (x : ℚ) (rt : List ℚ) (rest : List (List ℚ)) :
    (∃ w', setWeightWithFallback ((x :: rt) :: rest) = .ok w') ∧
    (setWeight ((x :: rt) :: rest) = .error () →
      setWeightWithFallback ((x :: rt) :: rest) = .ok ((1 :: rt) :: rest) ∧
      (((1 :: rt) :: rest).headD []).headD 0 = 1) := by
  have hgood : setWeight ((1 :: rt) :: rest) = .ok ((1 :: rt) :: rest) := by
    have : ¬ ((1 : ℚ) ≤ 0) := by norm_num
    simp [setWeight, this]
  constructor
  · cases hsw : setWeight ((x :: rt) :: rest) with
    | ok w' => exact ⟨w', by simp [setWeightWithFallback, hsw]⟩
    | error e =>
      exact ⟨(1 :: rt) :: rest, by simp [setWeightWithFallback, hsw, setPixel00, hgood]⟩
  · intro herr
    exact ⟨by simp [setWeightWithFallback, herr, setPixel00, hgood], rfl⟩

/-- Witness for C9 at the all-zero weight map `[[0, 0], [0]]`. -/
theorem set_weight_fallback_witness :
    (∃ w', setWeightWithFallback [[(0 : ℚ), 0], [0]] = .ok w') ∧
    setWeightWithFallback [[(0 : ℚ), 0], [0]] = .ok [[1, 0], [0]] :=
  ⟨(set_weight_fallback_spec 0 [0] [[0]]).1,
   ((set_weight_fallback_spec 0 [0] [[0]]).2 (by simp [setWeight])).1⟩

/-! ## C10: PSF trimming -/

lemma pySlice_nonneg {α : Type} (xs : List α) (a b : Int) (ha : 0 ≤ a) (hb : 0 ≤ b) :
    pySlice xs a b = (xs.drop a.toNat).take (b.toNat - a.toNat) := by
  have hs : pySliceIdx xs.length a = min xs.length a.toNat := by
    unfold pySliceIdx
    rw [if_neg (by omega)]
  have he : pySliceIdx xs.length b = min xs.length b.toNat := by
    unfold pySliceIdx
    rw [if_neg (by omega)]
  simp only [pySlice, hs, he]
  rcases le_or_lt a.toNat xs.length with hle | hgt
  · rw [min_eq_right hle]
    rcases le_or_lt b.toNat xs.length with hble | hbgt
    · rw [min_eq_right hble]
    · rw [min_eq_left (le_of_lt hbgt)]
      have hld : (List.drop a.toNat xs).length = xs.length - a.toNat := by
        simp
      have ht1 : (List.drop a.toNat xs).length ≤ xs.length - a.toNat := hld.le
      have ht2 : (List.drop a.toNat xs).length ≤ b.toNat - a.toNat := by
        rw [hld]
        omega
      rw [List.take_of_length_le ht1, List.take_of_length_le ht2]
  · rw [min_eq_left (le_of_lt hgt), List.drop_length,
      List.drop_eq_nil_of_le (le_of_lt hgt)]
    simp

/-- C10: when the computed slice bounds are nonnegative, the trimmed
image is exactly the `[rowstart:rowend, colstart:colend]` sub-block of the
PSF image with the bounds given by the `int(cen ± dim/2 + 0.5)` formulas,
and the new center subtracts `rowstart` from BOTH the row and the column
coordinate. -/
theorem trim_psf_spec (d0 d1 : ℚ) (im : List (List ℚ)) (cen : ℚ × ℚ)
    (h0 : 0 ≤ pyInt (cen.1 - d0 / 2 + 1 / 2)) (h1 : 0 ≤ pyInt (cen.1 + d0 / 2 + 1 / 2))
    (h2 : 0 ≤ pyInt (cen.2 - d1 / 2 + 1 / 2)) (h3 : 0 ≤ pyInt (cen.2 + d1 / 2 + 1 / 2)) :
    (trimPsf d0 d1 im cen).1 =
      ((im.drop (pyInt (cen.1 - d0 / 2 + 1 / 2)).toNat).take
          ((pyInt (cen.1 + d0 / 2 + 1 / 2)).toNat -
            (pyInt (cen.1 - d0 / 2 + 1 / 2)).toNat)).map
        (fun row =>
          (row.drop (pyInt (cen.2 - d1 / 2 + 1 / 2)).toNat).take
            ((pyInt (cen.2 + d1 / 2 + 1 / 2)).toNat -
              (pyInt (cen.2 - d1 / 2 + 1 / 2)).toNat)) ∧
    (trimPsf d0 d1 im cen).2.1 = cen.1 - pyInt (cen.1 - d0 / 2 + 1 / 2) ∧
    (trimPsf d0 d1 im cen).2.2 = cen.2 - pyInt (cen.1 - d0 / 2 + 1 / 2) := by
  refine ⟨?_, rfl, rfl⟩
  show ((pySlice im _ _).map fun row => pySlice row _ _) = _
  rw [pySlice_nonneg im _ _ h0 h1]
  exact List.map_congr_left (fun row _ => pySlice_nonneg row _ _ h2 h3)

/-- Witness for C10: a 4×4 image trimmed to dims (2,2) about center
(2, 2): `rowstart = int(1.5) = 1`, `rowend = int(3.5) = 3`. -/
theorem trim_psf_spec_witness :
    (trimPsf 2 2 c10Im (2, 2)).1 =
      ((c10Im.drop (pyInt ((2 : ℚ) - 2 / 2 + 1 / 2)).toNat).take
          ((pyInt ((2 : ℚ) + 2 / 2 + 1 / 2)).toNat -
            (pyInt ((2 : ℚ) - 2 / 2 + 1 / 2)).toNat)).map
        (fun row =>
          (row.drop (pyInt ((2 : ℚ) - 2 / 2 + 1 / 2)).toNat).take
            ((pyInt ((2 : ℚ) + 2 / 2 + 1 / 2)).toNat -
              (pyInt ((2 : ℚ) - 2 / 2 + 1 / 2)).toNat)) ∧
    (trimPsf 2 2 c10Im (2, 2)).2.1 = 2 - pyInt ((2 : ℚ) - 2 / 2 + 1 / 2) ∧
    (trimPsf 2 2 c10Im (2, 2)).2.2 = 2 - pyInt ((2 : ℚ) - 2 / 2 + 1 / 2) :=
  trim_psf_spec 2 2 c10Im (2, 2) (by norm_num [pyInt]) (by norm_num [pyInt])
    (by norm_num [pyInt]) (by norm_num [pyInt])

/-! ## C2: PIFF center-cache keying -/

/-- C2 (refuting the claimed distinctness): the cache key of every
`(row, col)` is the same `None`, so `get_rec` at (1,2) then at (3,4)
leaves a single cache entry, not two distinct ones; a later `get_center`
at (1,2) is served from the entry written by the (3,4) call. -/
theorem piff_center_cache_single_entry :
    getCenterCacheKey 1 2 = getCenterCacheKey 3 4 ∧
    (piffGetRec (piffGetRec ⟨25, []⟩ 1 2) 3 4).center_cache.length = 1 ∧
    (piffGetCenter (piffGetRec (piffGetRec ⟨25, []⟩ 1 2) 3 4) 1 2).2 =
      cacheLookup (getCenterCacheKey 3 4)
        (piffGetRec (piffGetRec ⟨25, []⟩ 1 2) 3 4).center_cache := by
  refine ⟨rfl, rfl, ?_⟩
  simp [piffGetCenter, piffGetRec, cacheCenter, cacheInsert, cacheLookup,
    getCenterCacheKey]

/-! ## C1: weight zeroing under the propagated mask -/

/-- C1 counterexample: a pixel whose dilated mask is nonzero and whose seg
value (5) is NOT the object's own id (3) — the claim says its weight must
become 0, but the code leaves it unchanged at 2, because the code zeroes
only where `seg == 0`. -/
theorem prop_weights_claim_false :
    (fun (_ _ : Int) => (1 : Nat)) 0 0 ≠ 0 ∧
    c1Obs.seg 0 0 ≠ 3 ∧
    c1Obs.flags = 0 ∧
    (propZeroWeights (fun _ _ => 1) c1Obs).weight.map (fun w => w 0 0) =
      some 2 := by
  refine ⟨by decide, by decide, rfl, ?_⟩
  simp [propZeroWeights, c1Obs, c1Seg]

lemma variant_zero (q : Int → Int → Prop) [∀ i j, Decidable (q i j)]
    (o : Option (Int → Int → ℚ)) (i j : Int) (h : q i j) :
    (o.map (fun w => fun a b => if q a b then 0 else w a b)).map (fun w => w i j) =
      o.map (fun _ => (0 : ℚ)) := by
  cases o <;> simp [h]

lemma variant_keep (q : Int → Int → Prop) [∀ i j, Decidable (q i j)]
    (o : Option (Int → Int → ℚ)) (i j : Int) (h : ¬ q i j) :
    (o.map (fun w => fun a b => if q a b then 0 else w a b)).map (fun w => w i j) =
      o.map (fun w => w i j) := by
  cases o <;> simp [h]

/-- C1 amended: for an observation with zero flags, at a pixel where the
dilated mask is nonzero and the seg map is background (0), every present
weight variant becomes exactly 0; at a pixel whose seg value is nonzero
(the object's own id or any other object's), every weight variant is
unchanged regardless of the mask. -/
theorem prop_weights_zeroing_spec (bmaski : Int → Int → Nat) (obs : PropObs)
    (hf : obs.flags = 0) (i j : Int) :
    (bmaski i j ≠ 0 → obs.seg i j = 0 →
      ((propZeroWeights bmaski obs).weight_raw.map (fun w => w i j) =
          obs.weight_raw.map (fun _ => 0) ∧
        (propZeroWeights bmaski obs).weight_us.map (fun w => w i j) =
          obs.weight_us.map (fun _ => 0)) ∧
      ((propZeroWeights bmaski obs).weight.map (fun w => w i j) =
          obs.weight.map (fun _ => 0) ∧
        (propZeroWeights bmaski obs).weight_orig.map (fun w => w i j) =
          obs.weight_orig.map (fun _ => 0))) ∧
    (obs.seg i j ≠ 0 →
      ((propZeroWeights bmaski obs).weight_raw.map (fun w => w i j) =
          obs.weight_raw.map (fun w => w i j) ∧
        (propZeroWeights bmaski obs).weight_us.map (fun w => w i j) =
          obs.weight_us.map (fun w => w i j)) ∧
      ((propZeroWeights bmaski obs).weight.map (fun w => w i j) =
          obs.weight.map (fun w => w i j) ∧
        (propZeroWeights bmaski obs).weight_orig.map (fun w => w i j) =
          obs.weight_orig.map (fun w => w i j))) := by
  constructor
  · intro hm hs
    have hq : bmaski i j ≠ 0 ∧ obs.seg i j = 0 := ⟨hm, hs⟩
    simp only [propZeroWeights, if_pos hf]
    exact ⟨⟨variant_zero _ _ i j hq, variant_zero _ _ i j hq⟩,
      ⟨variant_zero _ _ i j hq, variant_zero _ _ i j hq⟩⟩
  · intro hs
    have hq : ¬ (bmaski i j ≠ 0 ∧ obs.seg i j = 0) := fun h => hs h.2
    simp only [propZeroWeights, if_pos hf]
    exact ⟨⟨variant_keep _ _ i j hq, variant_keep _ _ i j hq⟩,
      ⟨variant_keep _ _ i j hq, variant_keep _ _ i j hq⟩⟩

/-- Witness for the amended C1: a masked background pixel is zeroed in
every present variant, a pixel assigned to an object keeps its weight. -/
theorem prop_weights_zeroing_spec_witness :
    ((propZeroWeights (fun _ _ => 1) c1ObsB).weight.map (fun w => w 0 0) =
        c1ObsB.weight.map (fun _ => 0) ∧
      (propZeroWeights (fun _ _ => 1) c1ObsB).weight_raw.map (fun w => w 0 0) =
        c1ObsB.weight_raw.map (fun _ => 0)) ∧
    (propZeroWeights (fun _ _ => 1) c1ObsB).weight.map (fun w => w 1 1) =
      c1ObsB.weight.map (fun w => w 1 1) := by
  have h00 := prop_weights_zeroing_spec (fun _ _ => 1) c1ObsB rfl 0 0
  have h11 := prop_weights_zeroing_spec (fun _ _ => 1) c1ObsB rfl 1 1
  exact ⟨⟨((h00.1 (by decide) (by decide)).2).1, ((h00.1 (by decide) (by decide)).1).1⟩,
    ((h11.2 (by decide)).2).1⟩

/-! ## C8: 8-connected dilation of a single flagged pixel -/

lemma gridSet_ne_zero (g : Int → Int → Nat) (i j a b : Int) :
    gridSet g i j 1 a b ≠ 0 ↔ ((a = i ∧ b = j) ∨ g a b ≠ 0) := by
  unfold gridSet
  split_ifs with h <;> simp [h]

lemma innerStep_fst (s1 : Nat) (iix iy : Int)
    (acc : (Int → Int → Nat) × List (Int × Int)) (dy a b : Int) :
    (innerStep s1 iix iy acc dy).1 a b ≠ 0 ↔
      (acc.1 a b ≠ 0 ∨
        (0 ≤ iy + dy ∧ iy + dy < (s1 : Int) ∧ a = iix ∧ b = iy + dy)) := by
  simp only [innerStep]
  split_ifs with h
  · rw [gridSet_ne_zero]
    constructor
    · rintro (⟨rfl, rfl⟩ | hacc)
      · exact Or.inr ⟨h.1, h.2, rfl, rfl⟩
      · exact Or.inl hacc
    · rintro (hacc | ⟨_, _, rfl, rfl⟩)
      · exact Or.inr hacc
      · exact Or.inl ⟨rfl, rfl⟩
  · constructor
    · exact Or.inl
    · rintro (hacc | ⟨h1, h2, _, _⟩)
      · exact hacc
      · exact absurd ⟨h1, h2⟩ h

lemma innerStep_snd (s1 : Nat) (iix iy : Int)
    (acc : (Int → Int → Nat) × List (Int × Int)) (dy : Int) (q : Int × Int) :
    q ∈ (innerStep s1 iix iy acc dy).2 ↔
      (q ∈ acc.2 ∨
        (0 ≤ iy + dy ∧ iy + dy < (s1 : Int) ∧ q = (iix, iy + dy))) := by
  simp only [innerStep]
  split_ifs with h
  · simp only [List.mem_append, List.mem_singleton]
    constructor
    · rintro (hacc | rfl)
      · exact Or.inl hacc
      · exact Or.inr ⟨h.1, h.2, rfl⟩
    · rintro (hacc | ⟨_, _, rfl⟩)
      · exact Or.inl hacc
      · exact Or.inr rfl
  · constructor
    · exact Or.inl
    · rintro (hacc | ⟨h1, h2, _⟩)
      · exact hacc
      · exact absurd ⟨h1, h2⟩ h

lemma innerFold_fst (s1 : Nat) (iix iy : Int) (dys : List Int)
    (acc : (Int → Int → Nat) × List (Int × Int)) (a b : Int) :
    ((dys.foldl (innerStep s1 iix iy) acc).1 a b ≠ 0) ↔
      (acc.1 a b ≠ 0 ∨
        ∃ dy ∈ dys, 0 ≤ iy + dy ∧ iy + dy < (s1 : Int) ∧ a = iix ∧ b = iy + dy) := by
  induction dys generalizing acc with
  | nil => simp
  | cons d ds ih =>
    rw [List.foldl_cons, ih, innerStep_fst]
    simp only [List.mem_cons]
    constructor
    · rintro ((hacc | hd) | ⟨dy, hdy, hrest⟩)
      · exact Or.inl hacc
      · exact Or.inr ⟨d, Or.inl rfl, hd⟩
      · exact Or.inr ⟨dy, Or.inr hdy, hrest⟩
    · rintro (hacc | ⟨dy, (rfl | hdy), hrest⟩)
      · exact Or.inl (Or.inl hacc)
      · exact Or.inl (Or.inr hrest)
      · exact Or.inr ⟨dy, hdy, hrest⟩

lemma innerFold_snd (s1 : Nat) (iix iy : Int) (dys : List Int)
    (acc : (Int → Int → Nat) × List (Int × Int)) (q : Int × Int) :
    (q ∈ (dys.foldl (innerStep s1 iix iy) acc).2) ↔
      (q ∈ acc.2 ∨
        ∃ dy ∈ dys, 0 ≤ iy + dy ∧ iy + dy < (s1 : Int) ∧ q = (iix, iy + dy)) := by
  induction dys generalizing acc with
  | nil => simp
  | cons d ds ih =>
    rw [List.foldl_cons, ih, innerStep_snd]
    simp only [List.mem_cons]
    constructor
    · rintro ((hacc | hd) | ⟨dy, hdy, hrest⟩)
      · exact Or.inl hacc
      · exact Or.inr ⟨d, Or.inl rfl, hd⟩
      · exact Or.inr ⟨dy, Or.inr hdy, hrest⟩
    · rintro (hacc | ⟨dy, (rfl | hdy), hrest⟩)
      · exact Or.inl (Or.inl hacc)
      · exact Or.inl (Or.inr hrest)
      · exact Or.inr ⟨dy, hdy, hrest⟩

lemma outerStep_fst (s0 s1 : Nat) (ix iy : Int)
    (acc : (Int → Int → Nat) × List (Int × Int)) (dx a b : Int) :
    (outerStep s0 s1 ix iy acc dx).1 a b ≠ 0 ↔
      (acc.1 a b ≠ 0 ∨
        (0 ≤ ix + dx ∧ ix + dx < (s0 : Int) ∧ a = ix + dx ∧
          ∃ dy ∈ ([-1, 0, 1] : List Int),
            0 ≤ iy + dy ∧ iy + dy < (s1 : Int) ∧ b = iy + dy)) := by
  simp only [outerStep]
  split_ifs with h
  · rw [innerFold_fst]
    constructor
    · rintro (hacc | ⟨dy, hdy, hy1, hy2, rfl, rfl⟩)
      · exact Or.inl hacc
      · exact Or.inr ⟨h.1, h.2, rfl, dy, hdy, hy1, hy2, rfl⟩
    · rintro (hacc | ⟨_, _, rfl, dy, hdy, hy1, hy2, rfl⟩)
      · exact Or.inl hacc
      · exact Or.inr ⟨dy, hdy, hy1, hy2, rfl, rfl⟩
  · constructor
    · exact Or.inl
    · rintro (hacc | ⟨h1, h2, _⟩)
      · exact hacc
      · exact absurd ⟨h1, h2⟩ h

lemma outerStep_snd (s0 s1 : Nat) (ix iy : Int)
    (acc : (Int → Int → Nat) × List (Int × Int)) (dx : Int) (q : Int × Int) :
    q ∈ (outerStep s0 s1 ix iy acc dx).2 ↔
      (q ∈ acc.2 ∨
        (0 ≤ ix + dx ∧ ix + dx < (s0 : Int) ∧
          ∃ dy ∈ ([-1, 0, 1] : List Int),
            0 ≤ iy + dy ∧ iy + dy < (s1 : Int) ∧ q = (ix + dx, iy + dy))) := by
  simp only [outerStep]
  split_ifs with h
  · rw [innerFold_snd]
    constructor
    · rintro (hacc | ⟨dy, hdy, hy1, hy2, rfl⟩)
      · exact Or.inl hacc
      · exact Or.inr ⟨h.1, h.2, dy, hdy, hy1, hy2, rfl⟩
    · rintro (hacc | ⟨_, _, dy, hdy, hy1, hy2, rfl⟩)
      · exact Or.inl hacc
      · exact Or.inr ⟨dy, hdy, hy1, hy2, rfl⟩
  · constructor
    · exact Or.inl
    · rintro (hacc | ⟨h1, h2, _⟩)
      · exact hacc
      · exact absurd ⟨h1, h2⟩ h

lemma expandPixel_fst (s0 s1 : Nat) (ix iy : Int)
    (acc : (Int → Int → Nat) × List (Int × Int)) (a b : Int) :
    (expandPixel s0 s1 ix iy acc).1 a b ≠ 0 ↔
      (acc.1 a b ≠ 0 ∨ nbr3 s0 s1 (ix, iy) a b) := by
  show (outerStep s0 s1 ix iy
      (outerStep s0 s1 ix iy (outerStep s0 s1 ix iy acc (-1)) 0) 1).1 a b ≠ 0 ↔ _
  rw [outerStep_fst, outerStep_fst, outerStep_fst]
  simp only [nbr3, List.mem_cons, List.mem_singleton, List.not_mem_nil, or_false,
    exists_eq_or_imp, exists_eq_left]
  omega

lemma outerFold_snd (s0 s1 : Nat) (ix iy : Int) (dxs : List Int)
    (acc : (Int → Int → Nat) × List (Int × Int)) (q : Int × Int) :
    (q ∈ (dxs.foldl (outerStep s0 s1 ix iy) acc).2) ↔
      (q ∈ acc.2 ∨
        ∃ dx ∈ dxs, 0 ≤ ix + dx ∧ ix + dx < (s0 : Int) ∧
          ∃ dy ∈ ([-1, 0, 1] : List Int),
            0 ≤ iy + dy ∧ iy + dy < (s1 : Int) ∧ q = (ix + dx, iy + dy)) := by
  induction dxs generalizing acc with
  | nil => simp
  | cons d ds ih =>
    rw [List.foldl_cons, ih, outerStep_snd]
    simp only [List.mem_cons]
    constructor
    · rintro ((hacc | hd) | ⟨dx, hdx, hrest⟩)
      · exact Or.inl hacc
      · exact Or.inr ⟨d, Or.inl rfl, hd⟩
      · exact Or.inr ⟨dx, Or.inr hdx, hrest⟩
    · rintro (hacc | ⟨dx, (rfl | hdx), hrest⟩)
      · exact Or.inl (Or.inl hacc)
      · exact Or.inl (Or.inr hrest)
      · exact Or.inr ⟨dx, hdx, hrest⟩

set_option maxHeartbeats 2000000 in
lemma expandPixel_snd (s0 s1 : Nat) (ix iy : Int)
    (acc : (Int → Int → Nat) × List (Int × Int)) (q : Int × Int) :
    q ∈ (expandPixel s0 s1 ix iy acc).2 ↔
      (q ∈ acc.2 ∨ nbr3 s0 s1 (ix, iy) q.1 q.2) := by
  rw [expandPixel, outerFold_snd]
  apply or_congr_right
  simp only [nbr3, List.mem_cons, List.mem_singleton, List.not_mem_nil, or_false,
    exists_eq_or_imp, exists_eq_left, Prod.ext_iff]
  omega

lemma roundFold_fst (s0 s1 : Nat) (F : List (Int × Int))
    (acc : (Int → Int → Nat) × List (Int × Int)) (a b : Int) :
    ((F.foldl (fun acc p => expandPixel s0 s1 p.1 p.2 acc) acc).1 a b ≠ 0) ↔
      (acc.1 a b ≠ 0 ∨ ∃ p ∈ F, nbr3 s0 s1 p a b) := by
  induction F generalizing acc with
  | nil => simp
  | cons q qs ih =>
    rw [List.foldl_cons, ih, expandPixel_fst]
    simp only [List.mem_cons]
    constructor
    · rintro ((hacc | hq) | ⟨p, hp, hpn⟩)
      · exact Or.inl hacc
      · exact Or.inr ⟨q, Or.inl rfl, hq⟩
      · exact Or.inr ⟨p, Or.inr hp, hpn⟩
    · rintro (hacc | ⟨p, (rfl | hp), hpn⟩)
      · exact Or.inl (Or.inl hacc)
      · exact Or.inl (Or.inr hpn)
      · exact Or.inr ⟨p, hp, hpn⟩

lemma roundFold_snd (s0 s1 : Nat) (F : List (Int × Int))
    (acc : (Int → Int → Nat) × List (Int × Int)) (q : Int × Int) :
    (q ∈ (F.foldl (fun acc p => expandPixel s0 s1 p.1 p.2 acc) acc).2) ↔
      (q ∈ acc.2 ∨ ∃ p ∈ F, nbr3 s0 s1 p q.1 q.2) := by
  induction F generalizing acc with
  | nil => simp
  | cons r rs ih =>
    rw [List.foldl_cons, ih, expandPixel_snd]
    simp only [List.mem_cons]
    constructor
    · rintro ((hacc | hr) | ⟨p, hp, hpn⟩)
      · exact Or.inl hacc
      · exact Or.inr ⟨r, Or.inl rfl, hr⟩
      · exact Or.inr ⟨p, Or.inr hp, hpn⟩
    · rintro (hacc | ⟨p, (rfl | hp), hpn⟩)
      · exact Or.inl (Or.inl hacc)
      · exact Or.inl (Or.inr hpn)
      · exact Or.inr ⟨p, hp, hpn⟩

lemma expandRound_fst (s0 s1 : Nat) (g : Int → Int → Nat)
    (F : List (Int × Int)) (a b : Int) :
    ((expandRound s0 s1 g F).1 a b ≠ 0) ↔
      (g a b ≠ 0 ∨ ∃ p ∈ F, nbr3 s0 s1 p a b) :=
  roundFold_fst s0 s1 F (g, []) a b

lemma expandRound_snd (s0 s1 : Nat) (g : Int → Int → Nat)
    (F : List (Int × Int)) (q : Int × Int) :
    (q ∈ (expandRound s0 s1 g F).2) ↔ ∃ p ∈ F, nbr3 s0 s1 p q.1 q.2 := by
  rw [expandRound, roundFold_snd]
  simp

lemma whereNonzero_mem (s0 s1 : Nat) (g : Int → Int → Nat) (p : Int × Int) :
    p ∈ whereNonzero s0 s1 g ↔
      ∃ i : Nat, i < s0 ∧ ∃ j : Nat, j < s1 ∧ g i j ≠ 0 ∧
        p = ((i : Int), (j : Int)) := by
  unfold whereNonzero
  rw [List.mem_flatMap]
  constructor
  · rintro ⟨i, hi, hp⟩
    rw [List.mem_range] at hi
    rw [List.mem_filterMap] at hp
    obtain ⟨j, hj, hcond⟩ := hp
    rw [List.mem_range] at hj
    split_ifs at hcond with hne
    cases hcond
    exact ⟨i, hi, j, hj, hne, rfl⟩
  · rintro ⟨i, hi, j, hj, hne, rfl⟩
    refine ⟨i, List.mem_range.mpr hi, ?_⟩
    rw [List.mem_filterMap]
    exact ⟨j, List.mem_range.mpr hj, by rw [if_pos hne]⟩

lemma whereNonzero_single (s0 s1 : Nat) (g : Int → Int → Nat) (px py : Int)
    (hg : ∀ x y, g x y ≠ 0 ↔ (x = px ∧ y = py))
    (hx : 0 ≤ px ∧ px < (s0 : Int)) (hy : 0 ≤ py ∧ py < (s1 : Int))
    (p : Int × Int) :
    p ∈ whereNonzero s0 s1 g ↔ p = (px, py) := by
  rw [whereNonzero_mem]
  constructor
  · rintro ⟨i, hi, j, hj, hne, rfl⟩
    obtain ⟨h1, h2⟩ := (hg _ _).mp hne
    rw [h1, h2]
  · rintro rfl
    refine ⟨px.toNat, by omega, py.toNat, by omega, ?_, ?_⟩
    · rw [Int.toNat_of_nonneg hx.1, Int.toNat_of_nonneg hy.1]
      exact (hg px py).mpr ⟨rfl, rfl⟩
    · rw [Int.toNat_of_nonneg hx.1, Int.toNat_of_nonneg hy.1]

/-- C8: for a mask whose unique nonzero pixel is the in-bounds `(px, py)`,
one round of the dilation makes nonzero exactly the in-bounds 3×3
neighborhood of `(px, py)`, and two rounds exactly the in-bounds 5×5
neighborhood. -/
theorem expand_mask_single_pixel (s0 s1 : Nat) (g : Int → Int → Nat)
    (px py : Int)
    (hg : ∀ x y, g x y ≠ 0 ↔ (x = px ∧ y = py))
    (hx : 0 ≤ px ∧ px < (s0 : Int)) (hy : 0 ≤ py ∧ py < (s1 : Int)) :
    ∀ a b : Int, 0 ≤ a → a < (s0 : Int) → 0 ≤ b → b < (s1 : Int) →
      ((expandMask s0 s1 g 1 a b ≠ 0 ↔
          (px - 1 ≤ a ∧ a ≤ px + 1 ∧ py - 1 ≤ b ∧ b ≤ py + 1)) ∧
        (expandMask s0 s1 g 2 a b ≠ 0 ↔
          (px - 2 ≤ a ∧ a ≤ px + 2 ∧ py - 2 ≤ b ∧ b ≤ py + 2))) := by
  intro a b ha0 ha1 hb0 hb1
  have hwn := whereNonzero_single s0 s1 g px py hg hx hy
  have e1 : expandMask s0 s1 g 1 =
      (expandRound s0 s1 g (whereNonzero s0 s1 g)).1 := rfl
  have e2 : expandMask s0 s1 g 2 =
      (expandRound s0 s1
        (expandRound s0 s1 g (whereNonzero s0 s1 g)).1
        (expandRound s0 s1 g (whereNonzero s0 s1 g)).2).1 := rfl
  have hr1 : ∀ x y : Int,
      ((expandRound s0 s1 g (whereNonzero s0 s1 g)).1 x y ≠ 0) ↔
        (g x y ≠ 0 ∨ nbr3 s0 s1 (px, py) x y) := by
    intro x y
    rw [expandRound_fst]
    constructor
    · rintro (hgv | ⟨p, hp, hpn⟩)
      · exact Or.inl hgv
      · rw [hwn p] at hp
        subst hp
        exact Or.inr hpn
    · rintro (hgv | hn)
      · exact Or.inl hgv
      · exact Or.inr ⟨(px, py), (hwn _).mpr rfl, hn⟩
  constructor
  · rw [e1, hr1]
    simp only [nbr3, hg]
    omega
  · rw [e2, expandRound_fst]
    constructor
    · rintro (hg1 | ⟨p, hp, hpn⟩)
      · rw [hr1] at hg1
        rcases hg1 with hgv | hn
        · have := (hg a b).mp hgv
          omega
        · simp only [nbr3] at hn
          omega
      · rw [expandRound_snd] at hp
        obtain ⟨p0, hp0, hp0n⟩ := hp
        rw [hwn p0] at hp0
        subst hp0
        simp only [nbr3] at hpn hp0n
        omega
    · intro hball
      refine Or.inr ⟨(max (px - 1) (min (px + 1) a), max (py - 1) (min (py + 1) b)),
        ?_, ?_⟩
      · rw [expandRound_snd]
        refine ⟨(px, py), (hwn _).mpr rfl, ?_⟩
        simp only [nbr3]
        omega
      · simp only [nbr3]
        omega

/-- Witness for C8: a 4×5 mask with its single nonzero pixel (value 6) at
(1, 2): after one round the corner (0, 0) is still outside the mask while
(2, 3) is inside; after two rounds (3, 4) is inside. -/
theorem expand_mask_single_pixel_witness :
    (¬ (expandMask 4 5 c8Grid 1 0 0 ≠ 0)) ∧
    (expandMask 4 5 c8Grid 1 2 3 ≠ 0) ∧
    (expandMask 4 5 c8Grid 2 3 4 ≠ 0) := by
  have hg : ∀ x y : Int, c8Grid x y ≠ 0 ↔ (x = 1 ∧ y = 2) := by
    intro x y
    unfold c8Grid
    split_ifs with h <;> simp [h]
  have h00 := expand_mask_single_pixel 4 5 c8Grid 1 2 hg (by norm_num) (by norm_num)
    0 0 (by norm_num) (by norm_num) (by norm_num) (by norm_num)
  have h23 := expand_mask_single_pixel 4 5 c8Grid 1 2 hg (by norm_num) (by norm_num)
    2 3 (by norm_num) (by norm_num) (by norm_num) (by norm_num)
  have h34 := expand_mask_single_pixel 4 5 c8Grid 1 2 hg (by norm_num) (by norm_num)
    3 4 (by norm_num) (by norm_num) (by norm_num) (by norm_num)
  refine ⟨?_, ?_, ?_⟩
  · intro hne
    have := h00.1.mp hne
    omega
  · exact h23.1.mpr (by norm_num)
  · exact h34.2.mpr (by norm_num)

end Ngmixer
